import Mathlib

/-!
Verification development for the `hsbc-data-cleaner` pipeline.

The Python sources are shallowly embedded: text is modelled as `List Char`
(Unicode code points, as Python strings are sequences of code points),
Python `dict`s as association lists with replace-on-insert update, fallible
functions as `Option`/`Except`, and file-backed state (the persisted change
index) as explicit state passing.  Loops whose termination depends on a
validated precondition are written with an explicit fuel parameter so that
every definition is kernel-executable; the fuel passed by the public entry
points is always sufficient (proved where a claim needs it).
-/

/-- Code points of a string literal; Python strings are code-point sequences. -/
def str (s : String) : List Char := s.data

/-- Python `str.isspace` / regex `\s` (Unicode whitespace; the full set used
by CPython's `str.strip`, `str.split` and `re` on the code points that can
appear here). -/
def pyIsSpace (c : Char) : Bool :=
  c = ' ' || c = '\t' || c = '\n' || c = '\r' || c.toNat = 11 || c.toNat = 12 ||
  c.toNat = 28 || c.toNat = 29 || c.toNat = 30 || c.toNat = 31 ||
  c.toNat = 133 || c.toNat = 160 || c.toNat = 5760 ||
  (8192 ≤ c.toNat && c.toNat ≤ 8202) || c.toNat = 8232 || c.toNat = 8233 ||
  c.toNat = 8239 || c.toNat = 8287 || c.toNat = 12288

/-- Python `str.strip()`: remove leading and trailing whitespace. -/
def stripChars (l : List Char) : List Char :=
  ((l.dropWhile pyIsSpace).reverse.dropWhile pyIsSpace).reverse

/-- Python slice `l[a:b]` (for `a ≤ b`). -/
def listSlice (l : List Char) (a b : Nat) : List Char :=
  (l.drop a).take (b - a)

/-! ## `chunking/chunker.py` -/

/-- `TextChunk` dataclass from `chunking/chunker.py`. -/
structure TextChunk where
  sectionName : List Char
  index : Nat
  text : List Char
  start_offset : Nat
  end_offset : Nat
deriving DecidableEq, Repr

/-- The `while start < len(tokens)` loop of `chunk_section_text`.  `fuel` is
an explicit bound on the number of iterations; `chunk_section_text` passes
`tokens.length`, which suffices because `start` grows by `step ≥ 1` each
iteration. -/
def chunkLoop (sname : List Char) (toks : List Char) (csize step : Nat) :
    Nat → Nat → Nat → List TextChunk
  | 0, _, _ => []
  | fuel + 1, start, index =>
    if start < toks.length then
      let e := min (start + csize) toks.length
      let ctext := stripChars (listSlice toks start e)
      if ctext.isEmpty then
        chunkLoop sname toks csize step fuel (start + step) index
      else
        ⟨sname, index, ctext, start, e⟩ ::
          chunkLoop sname toks csize step fuel (start + step) (index + 1)
    else []

/-- `chunk_section_text` from `chunking/chunker.py`.  A `ValueError` is
modelled as `Except.error` carrying the message. -/
def chunk_section_text (section_name : List Char) (text : List Char)
    (chunk_size overlap : Nat) : Except (List Char) (List TextChunk) :=
  if chunk_size = 0 then Except.error (str "chunk_size must be positive")
  else if chunk_size ≤ overlap then
    Except.error (str "overlap must be >=0 and < chunk_size")
  else
    let clean_text := stripChars text
    if clean_text = [] then Except.ok []
    else
      Except.ok (chunkLoop section_name clean_text chunk_size
        (chunk_size - overlap) clean_text.length 0 0)

/-- Componentwise decidable equality for `Except`, so that concrete results
of the embedded fallible functions can be checked by `decide`. -/
instance {ε α : Type} [DecidableEq ε] [DecidableEq α] : DecidableEq (Except ε α) := fun a b =>
  match a, b with
  | Except.ok x, Except.ok y =>
    if h : x = y then isTrue (by rw [h]) else isFalse (fun hh => h (Except.ok.inj hh))
  | Except.error x, Except.error y =>
    if h : x = y then isTrue (by rw [h]) else isFalse (fun hh => h (Except.error.inj hh))
  | Except.ok _, Except.error _ => isFalse (fun hh => Except.noConfusion hh)
  | Except.error _, Except.ok _ => isFalse (fun hh => Except.noConfusion hh)

/-! ## `preprocessing/english_filter.py` -/

/-- `_is_cjk` from `preprocessing/english_filter.py`:
`"\u4e00" <= char <= "\u9fff"`. -/
def _is_cjk (c : Char) : Bool :=
  0x4E00 ≤ c.toNat && c.toNat ≤ 0x9FFF

/-- Python `ch.isascii() and ch.isalpha()`: for ASCII code points, `isalpha`
holds exactly for the letters A-Z and a-z. -/
def isAsciiLetter (c : Char) : Bool :=
  (65 ≤ c.toNat && c.toNat ≤ 90) || (97 ≤ c.toNat && c.toNat ≤ 122)

/-- `_is_chinese_dominant` from `preprocessing/english_filter.py`.  The float
ratio comparison `ascii_letters / total_letters < ascii_ratio_threshold` is
modelled exactly over the rationals. -/
def _is_chinese_dominant (text : List Char) (chinese_threshold : Nat)
    (ascii_ratio_threshold : Rat) : Bool :=
  let chinese := text.countP _is_cjk
  let ascii_letters := text.countP isAsciiLetter
  if chinese_threshold ≤ chinese then true
  else
    let total_letters := chinese + ascii_letters
    if total_letters = 0 then false
    else decide ((ascii_letters : Rat) / (total_letters : Rat) < ascii_ratio_threshold)

/-! ## `config.py` -/

/-- ASCII decimal digit, regex `\\d` (Python's `\\d` is Unicode-aware, but on
the ASCII inputs relevant here it coincides with 0-9). -/
def isAsciiDigit (c : Char) : Bool := 48 ≤ c.toNat && c.toNat ≤ 57

/-- `_QUARTER_PATTERN = re.compile(r"^(?P<year>\\d\x7b4\x7d)[- ]?Q(?P<q>[1-4])$")`
from `config.py`, compiled *without* `re.IGNORECASE`.  A full match yields the
four year digits and the quarter digit.  The optional separator is
deterministic here: `-` and a space differ from the following literal `Q`,
so consuming one when present is equivalent to the backtracking search. -/
def quarterPatternMatch (s : List Char) : Option (List Char × Char) :=
  match s with
  | y1 :: y2 :: y3 :: y4 :: rest =>
    if isAsciiDigit y1 && isAsciiDigit y2 && isAsciiDigit y3 && isAsciiDigit y4 then
      let rest2 := match rest with
        | c :: r => if c = '-' || c = ' ' then r else rest
        | [] => rest
      match rest2 with
      | 'Q' :: q :: [] =>
        if q = '1' || q = '2' || q = '3' || q = '4' then some ([y1, y2, y3, y4], q)
        else none
      | _ => none
    else none
  | _ => none

/-- `AppConfig.normalize_quarter` from `config.py`: strip, match
`_QUARTER_PATTERN`, return the canonical `YYYYQn`; a failed match raises
`ValueError` (modelled as `none`). -/
def normalize_quarter (quarter : List Char) : Option (List Char) :=
  match quarterPatternMatch (stripChars quarter) with
  | some (year, q) => some (year ++ 'Q' :: [q])
  | none => none

/-- `AppConfig.quarter_folder_name` from `config.py`:
`f"{norm[:4]}-Q{norm[-1]}"` on the normalized quarter (`norm[-1]` is the last
code point of the non-empty normalized string). -/
def quarter_folder_name (quarter : List Char) : Option (List Char) :=
  match normalize_quarter quarter with
  | some norm => some (norm.take 4 ++ '-' :: 'Q' :: [norm.reverse.headD 'Q'])
  | none => none

/-! ## SHA-256 (for `cleaning/deduplicate.py`'s `compute_hash`)

`hashlib.sha256(text.encode("utf-8")).hexdigest()` is embedded in full:
UTF-8 encoding of the code points, the FIPS 180-4 compression function over
`Nat` with explicit reduction modulo `2^32`, and lower-case hex rendering. -/

/-- Reduce modulo `2^32` (32-bit machine word). -/
def u32 (n : Nat) : Nat := n % 4294967296

/-- Rotate a 32-bit word right by `n` bits. -/
def rotr32 (n x : Nat) : Nat := (x >>> n) ||| u32 (x <<< (32 - n))

/-- Bitwise complement of a 32-bit word. -/
def not32 (x : Nat) : Nat := 4294967295 ^^^ x

/-- SHA-256 round constants (FIPS 180-4, here in decimal). -/
def K256 : List Nat :=
  [1116352408, 1899447441, 3049323471, 3921009573, 961987163,
   1508970993, 2453635748, 2870763221, 3624381080, 310598401,
   607225278, 1426881987, 1925078388, 2162078206, 2614888103,
   3248222580, 3835390401, 4022224774, 264347078, 604807628,
   770255983, 1249150122, 1555081692, 1996064986, 2554220882,
   2821834349, 2952996808, 3210313671, 3336571891, 3584528711,
   113926993, 338241895, 666307205, 773529912, 1294757372,
   1396182291, 1695183700, 1986661051, 2177026350, 2456956037,
   2730485921, 2820302411, 3259730800, 3345764771, 3516065817,
   3600352804, 4094571909, 275423344, 430227734, 506948616,
   659060556, 883997877, 958139571, 1322822218, 1537002063,
   1747873779, 1955562222, 2024104815, 2227730452, 2361852424,
   2428436474, 2756734187, 3204031479, 3329325298]

/-- SHA-256 initial hash values (FIPS 180-4, here in decimal). -/
def H256 : List Nat :=
  [1779033703, 3144134277, 1013904242, 2773480762, 1359893119,
   2600822924, 528734635, 1541459225]

/-- Big-endian 32-bit words from a 64-byte block (fuel 16). -/
def bytesToWords : Nat → List Nat → List Nat
  | 0, _ => []
  | fuel + 1, b1 :: b2 :: b3 :: b4 :: rest =>
    (((b1 * 256 + b2) * 256 + b3) * 256 + b4) :: bytesToWords fuel rest
  | _ + 1, _ => []

/-- Extend the 16 message words to 64 (48 extension steps). -/
def sha256Extend : Nat → List Nat → List Nat
  | 0, ws => ws
  | fuel + 1, ws =>
    let w15 := ws.getD (ws.length - 15) 0
    let w2 := ws.getD (ws.length - 2) 0
    let w16 := ws.getD (ws.length - 16) 0
    let w7 := ws.getD (ws.length - 7) 0
    let s0 := rotr32 7 w15 ^^^ rotr32 18 w15 ^^^ (w15 >>> 3)
    let s1 := rotr32 17 w2 ^^^ rotr32 19 w2 ^^^ (w2 >>> 10)
    sha256Extend fuel (ws ++ [u32 (w16 + s0 + w7 + s1)])

/-- One SHA-256 compression round; the state is the word list `[a, …, h]`. -/
def sha256Round (st : List Nat) (kw : Nat × Nat) : List Nat :=
  match st with
  | [a, b, c, d, e, f, g, h] =>
    let S1 := rotr32 6 e ^^^ rotr32 11 e ^^^ rotr32 25 e
    let ch := (e &&& f) ^^^ (not32 e &&& g)
    let t1 := u32 (h + S1 + ch + kw.1 + kw.2)
    let S0 := rotr32 2 a ^^^ rotr32 13 a ^^^ rotr32 22 a
    let mj := (a &&& b) ^^^ (a &&& c) ^^^ (b &&& c)
    let t2 := u32 (S0 + mj)
    [u32 (t1 + t2), a, b, c, u32 (d + t1), e, f, g]
  | _ => st

/-- Process one 64-byte block, updating the eight hash words. -/
def sha256Block (hs : List Nat) (block : List Nat) : List Nat :=
  let ws := sha256Extend 48 (bytesToWords 16 block)
  let st := (K256.zip ws).foldl sha256Round hs
  (hs.zip st).map (fun p => u32 (p.1 + p.2))

/-- Split the padded message into 64-byte blocks (fuel-bounded by length). -/
def toBlocks : Nat → List Nat → List (List Nat)
  | 0, _ => []
  | _ + 1, [] => []
  | fuel + 1, l => l.take 64 :: toBlocks fuel (l.drop 64)

/-- SHA-256 digest (32 bytes) of a byte list. -/
def sha256Bytes (msg : List Nat) : List Nat :=
  let len := msg.length
  let k := (56 + 64 - (len + 1) % 64) % 64
  let L := 8 * len
  let padded := msg ++ 128 :: List.replicate k 0 ++
    [L >>> 56 &&& 255, L >>> 48 &&& 255, L >>> 40 &&& 255, L >>> 32 &&& 255,
     L >>> 24 &&& 255, L >>> 16 &&& 255, L >>> 8 &&& 255, L &&& 255]
  let hs := (toBlocks padded.length padded).foldl sha256Block H256
  hs.foldr (fun w acc =>
    (w >>> 24 &&& 255) :: (w >>> 16 &&& 255) :: (w >>> 8 &&& 255) :: (w &&& 255) :: acc) []

/-- UTF-8 encoding of one code point. -/
def utf8EncodeChar (c : Char) : List Nat :=
  let n := c.toNat
  if n < 128 then [n]
  else if n < 2048 then [192 ||| (n >>> 6), 128 ||| (n &&& 63)]
  else if n < 65536 then
    [224 ||| (n >>> 12), 128 ||| ((n >>> 6) &&& 63), 128 ||| (n &&& 63)]
  else
    [240 ||| (n >>> 18), 128 ||| ((n >>> 12) &&& 63),
     128 ||| ((n >>> 6) &&& 63), 128 ||| (n &&& 63)]

/-- Python `text.encode("utf-8")`. -/
def utf8Encode (l : List Char) : List Nat :=
  l.foldr (fun c acc => utf8EncodeChar c ++ acc) []

/-- Lower-case hex digit. -/
def hexChar (n : Nat) : Char :=
  if n < 10 then Char.ofNat (48 + n) else Char.ofNat (87 + n)

/-- Lower-case hex string of a byte list (`hexdigest`). -/
def bytesToHex (bs : List Nat) : List Char :=
  bs.foldr (fun b acc => hexChar (b >>> 4) :: hexChar (b &&& 15) :: acc) []

/-- `compute_hash` from `cleaning/deduplicate.py`:
`hashlib.sha256(text.encode("utf-8")).hexdigest()`. -/
def compute_hash (text : List Char) : List Char :=
  bytesToHex (sha256Bytes (utf8Encode text))

/-! ## `parsers/pdf_parser.py`: section data model -/

/-- `PdfSection` dataclass from `parsers/pdf_parser.py`. -/
structure PdfSection where
  name : List Char
  title : List Char
  pages : List Nat
  lines : List (List Char)
deriving DecidableEq, Repr

/-- The `PdfSection.text` property: `"\n".join(self.lines).strip()`. -/
def sectionText (s : PdfSection) : List Char :=
  stripChars (List.intercalate ['\n'] s.lines)

/-! ## `cleaning/deduplicate.py` -/

/-- One value of the innermost index mapping: the Python dict
`\x7b"hash": …, "section": …\x7d` (`sec` stands for the `"section"` key, a
Lean keyword). -/
structure SectionEntry where
  hash : List Char
  sec : List Char
deriving DecidableEq, Repr

/-- `SectionHashResult` dataclass from `cleaning/deduplicate.py`;
`status` is one of the strings `"new"`, `"updated"`, `"reuse"`. -/
structure SectionHashResult where
  key : List Char
  name : List Char
  current_hash : List Char
  status : List Char
  previous_hash : Option (List Char)
deriving DecidableEq, Repr

/-- Python `dict` lookup, on the association-list model (keys unique). -/
def dictGet {β : Type} : List (List Char × β) → List Char → Option β
  | [], _ => none
  | (k2, v) :: rest, k => if k2 = k then some v else dictGet rest k

/-- Python `dict` assignment `m[k] = v`: replace in place, else append. -/
def dictSet {β : Type} (k : List Char) (v : β) :
    List (List Char × β) → List (List Char × β)
  | [] => [(k, v)]
  | (k2, v2) :: rest => if k2 = k then (k, v) :: rest else (k2, v2) :: dictSet k v rest

/-- Python `dict.keys()` (in insertion order). -/
def dictKeys {β : Type} (m : List (List Char × β)) : List (List Char) :=
  m.map Prod.fst

/-- `section_key -> \x7bhash, section\x7d` for one quarter. -/
abbrev QuarterMap := List (List Char × SectionEntry)

/-- `quarter_label -> QuarterMap` for one fund. -/
abbrev FundEntry := List (List Char × QuarterMap)

/-- The persisted index: `fund_id -> FundEntry`. -/
abbrev ChunkIndex := List (List Char × FundEntry)

/-- Decimal digits of a `Nat` (Python `str(idx)`); fuel-bounded, `n + 1`
suffices since the recursion divides by 10. -/
def natDigitsGo : Nat → Nat → List Char
  | 0, _ => []
  | fuel + 1, n =>
    if n < 10 then [Char.ofNat (48 + n)]
    else natDigitsGo fuel (n / 10) ++ [Char.ofNat (48 + n % 10)]

/-- Decimal rendering of a `Nat`. -/
def natDigits (n : Nat) : List Char := natDigitsGo (n + 1) n

/-- The f-string `f"\x7bsection.name\x7d:\x7bidx\x7d"`. -/
def sectionKey (name : List Char) (idx : Nat) : List Char :=
  name ++ ':' :: natDigits idx

/-- `_find_previous_quarter` from `cleaning/deduplicate.py`: the keys of the
fund entry other than the target quarter, sorted ascending (Python string
comparison is code-point-lexicographic, which is the `List Char` linear
order), last one taken; its map is looked up.  The `except TypeError` branch
is unreachable for string keys. -/
def _find_previous_quarter (fund_entry : FundEntry) (quarter : List Char) :
    Option (List Char) × Option QuarterMap :=
  let available := (dictKeys fund_entry).filter (fun q => q != quarter)
  match (List.insertionSort (· ≤ ·) available).getLast? with
  | none => (none, none)
  | some prev_quarter => (some prev_quarter, dictGet fund_entry prev_quarter)

/-- The per-section body of the `for idx, section in enumerate(sections)`
loop of `evaluate_sections`: status decision only.  Python's
`if existing_current_map and key in existing_current_map` (an absent quarter
is `None`, an empty dict is falsy, otherwise a key test) is exactly
`(existing_current_map.bind (dictGet · key)).isSome`, and likewise the
`elif previous_map:` + `previous_map.get(key)` chain; every stored entry is
a non-empty dict, hence truthy. -/
def evalSection (existing_current_map previous_map : Option QuarterMap)
    (idx : Nat) (s : PdfSection) : SectionHashResult :=
  let key := sectionKey s.name idx
  let current_hash := compute_hash (sectionText s)
  match existing_current_map.bind (fun m => dictGet m key) with
  | some e =>
    if e.hash = current_hash then ⟨key, s.name, current_hash, str "reuse", some e.hash⟩
    else ⟨key, s.name, current_hash, str "updated", some e.hash⟩
  | none =>
    match previous_map.bind (fun m => dictGet m key) with
    | some e =>
      if e.hash = current_hash then ⟨key, s.name, current_hash, str "reuse", some e.hash⟩
      else ⟨key, s.name, current_hash, str "updated", some e.hash⟩
    | none => ⟨key, s.name, current_hash, str "new", none⟩

/-- The full `for idx, section in enumerate(sections)` loop: accumulates the
result list and `new_current_map` exactly as the source appends and
assigns. -/
def evalLoop (existing_current_map previous_map : Option QuarterMap) :
    List PdfSection → Nat → List SectionHashResult → QuarterMap →
    List SectionHashResult × QuarterMap
  | [], _, results, new_map => (results, new_map)
  | s :: rest, idx, results, new_map =>
    evalLoop existing_current_map previous_map rest (idx + 1)
      (results ++ [evalSection existing_current_map previous_map idx s])
      (dictSet (sectionKey s.name idx)
        ⟨compute_hash (sectionText s), s.name⟩ new_map)

/-- `evaluate_sections` from `cleaning/deduplicate.py`, with the persisted
index passed in and returned (`load_index`/`save_index` are the whole-file
read and rewrite).  `index.setdefault(fund_id, \x7b\x7d)` followed by the final
`fund_entry[quarter] = new_current_map` amounts to writing
`dictSet quarter new_current_map fund_entry` under `fund_id`. -/
def evaluate_sections (fund_id quarter : List Char) (sections : List PdfSection)
    (index : ChunkIndex) : List SectionHashResult × ChunkIndex :=
  let fund_entry := (dictGet index fund_id).getD []
  let existing_current_map := dictGet fund_entry quarter
  let previous_map := (_find_previous_quarter fund_entry quarter).2
  let out := evalLoop existing_current_map previous_map sections 0 [] []
  (out.1, dictSet fund_id (dictSet quarter out.2 fund_entry) index)

/-- The `new_current_map` built by the loop, standalone: the key→entry map
computed from all current sections starting at ordinal `idx`. -/
def buildQuarterMap : List PdfSection → Nat → QuarterMap → QuarterMap
  | [], _, m => m
  | s :: rest, idx, m =>
    buildQuarterMap rest (idx + 1)
      (dictSet (sectionKey s.name idx) ⟨compute_hash (sectionText s), s.name⟩ m)

/-- The result list of the loop, standalone. -/
def mapResults (existing_current_map previous_map : Option QuarterMap) :
    Nat → List PdfSection → List SectionHashResult
  | _, [] => []
  | idx, s :: rest =>
    evalSection existing_current_map previous_map idx s ::
      mapResults existing_current_map previous_map (idx + 1) rest

/-! ## `parsers/pdf_parser.py`: regex patterns and matching

The heading patterns use only literals, `\\s+`, `c?`, `c+` and `.*`; they are
embedded as token lists with a complete backtracking matcher, so `rsearch`
agrees with Python `re.search` on these patterns. -/

/-- One regex token as used by the section-heading patterns. -/
inductive RTok where
  | lit (c : Char)
  | litOpt (c : Char)
  | litPlus (c : Char)
  | wsPlus
  | dotStar
deriving DecidableEq, Repr

/-- ASCII lower-casing (`str.lower()` / `re.IGNORECASE`; the case-insensitive
patterns here are pure ASCII, and CJK code points have no case). -/
def lowerChar (c : Char) : Char :=
  if 65 ≤ c.toNat && c.toNat ≤ 90 then Char.ofNat (c.toNat + 32) else c

/-- Character comparison, case-insensitively when `ic` is set. -/
def cEq (ic : Bool) (c x : Char) : Bool :=
  if ic then lowerChar c = lowerChar x else c = x

/-- Proper suffixes reachable by consuming one or more leading `p`-characters
(the candidate continuations of a `+` quantifier). -/
def dropPlus (p : Char → Bool) : List Char → List (List Char)
  | [] => []
  | c :: rest => if p c then rest :: dropPlus p rest else []

/-- Suffixes reachable by consuming zero or more leading non-newline
characters (the candidate continuations of `.*`). -/
def dropStar : List Char → List (List Char)
  | [] => [[]]
  | c :: rest => (c :: rest) :: (if c = '\n' then [] else dropStar rest)

/-- Complete backtracking matcher: does the token list match a prefix of
`s`? -/
def rmatch (ic : Bool) : List RTok → List Char → Bool
  | [], _ => true
  | RTok.lit c :: ts, s =>
    match s with
    | [] => false
    | x :: xs => cEq ic c x && rmatch ic ts xs
  | RTok.litOpt c :: ts, s =>
    rmatch ic ts s ||
      (match s with
       | [] => false
       | x :: xs => cEq ic c x && rmatch ic ts xs)
  | RTok.litPlus c :: ts, s => (dropPlus (cEq ic c) s).any (fun s2 => rmatch ic ts s2)
  | RTok.wsPlus :: ts, s => (dropPlus pyIsSpace s).any (fun s2 => rmatch ic ts s2)
  | RTok.dotStar :: ts, s => (dropStar s).any (fun s2 => rmatch ic ts s2)

/-- Python `re.search`: the pattern matches at some position. -/
def rsearch (ic : Bool) (toks : List RTok) (s : List Char) : Bool :=
  s.tails.any (fun s2 => rmatch ic toks s2)

/-- Literal tokens of a pattern fragment. -/
def strLits (s : String) : List RTok := s.data.map RTok.lit

/-- `SectionDefinition` from `parsers/pdf_parser.py`; each pattern carries
its `re.IGNORECASE` flag. -/
structure SectionDefinition where
  name : List Char
  patterns : List (Bool × List RTok)
deriving DecidableEq, Repr

/-- `DEFAULT_SECTION_DEFINITIONS` from `parsers/pdf_parser.py`. -/
def DEFAULT_SECTION_DEFINITIONS : List SectionDefinition :=
  [⟨str "important_information",
    [(true, strLits "important" ++ [RTok.wsPlus] ++ strLits "information"),
     (false, strLits "重要事項")]⟩,
   ⟨str "top_holdings",
    [(true, strLits "top" ++ [RTok.wsPlus] ++ strLits "10" ++ [RTok.wsPlus] ++
        strLits "holdings"),
     (false, strLits "十大持股"),
     (false, strLits "十大持倉"),
     (false, strLits "十大持仓"),
     (false, strLits "股票十大持倉"),
     (false, strLits "固定收益十大持倉"),
     (false, [RTok.litPlus '十', RTok.litPlus '大', RTok.dotStar,
       RTok.litPlus '持', RTok.litPlus '股']),
     (false, [RTok.litPlus '十', RTok.litPlus '大', RTok.dotStar,
       RTok.litPlus '持', RTok.litPlus '倉']),
     (false, strLits "十大投資項目")]⟩,
   ⟨str "performance",
    [(true, strLits "calendar" ++ [RTok.wsPlus] ++ strLits "year" ++ [RTok.wsPlus] ++
        strLits "returns"),
     (false, strLits "年度回報"),
     (false, strLits "累積回報")]⟩,
   ⟨str "product_summary",
    [(true, strLits "product" ++ [RTok.wsPlus] ++ strLits "key" ++ [RTok.wsPlus] ++
        strLits "facts"),
     (false, strLits "產品資料概要")]⟩,
   ⟨str "objective_strategy",
    [(true, strLits "objective" ++ [RTok.litOpt 's'] ++ [RTok.wsPlus] ++ strLits "and" ++
        [RTok.wsPlus] ++ strLits "investment" ++ [RTok.wsPlus] ++ strLits "strategy"),
     (false, strLits "目標及投資策略")]⟩,
   ⟨str "fees_charges",
    [(true, strLits "fee" ++ [RTok.litOpt 's'] ++ [RTok.wsPlus] ++ strLits "and" ++
        [RTok.wsPlus] ++ strLits "charges"),
     (false, strLits "費用"),
     (false, strLits "費用及開支")]⟩,
   ⟨str "other_information",
    [(true, strLits "other" ++ [RTok.wsPlus] ++ strLits "information"),
     (false, strLits "其他資料")]⟩]

/-! ## `cleaning/normalizers.py` -/

/-- `FULLWIDTH_PUNCTUATION` from `cleaning/normalizers.py` (insertion
order). -/
def FULLWIDTH_PUNCTUATION : List (Char × Char) :=
  [('，', ','), ('、', ','), ('。', '.'), ('：', ':'), ('；', ';'),
   ('？', '?'), ('！', '!'), ('（', '('), ('）', ')'), ('％', '%')]

/-- Python `text.replace(src, dst)` for single characters. -/
def replaceChar (src dst : Char) (l : List Char) : List Char :=
  l.map (fun c => if c = src then dst else c)

/-- `WHITESPACE_RE.sub(" ", text)`: each maximal whitespace run becomes one
space (tracking whether the previous character was part of a run). -/
def collapseWsGo (prevSpace : Bool) : List Char → List Char
  | [] => []
  | c :: rest =>
    if pyIsSpace c then
      if prevSpace then collapseWsGo true rest
      else ' ' :: collapseWsGo true rest
    else c :: collapseWsGo false rest

/-- Collapse whitespace runs to single spaces. -/
def collapseWs (l : List Char) : List Char := collapseWsGo false l

/-- One pass of `_ensure_spacing_after_punctuation`:
`re.sub(symbol(?=\\S), symbol + " ", text)`. -/
def ensureSpaceAfter (sym : Char) : List Char → List Char
  | [] => []
  | [c] => [c]
  | c :: d :: rest =>
    if c = sym && !pyIsSpace d then c :: ' ' :: ensureSpaceAfter sym (d :: rest)
    else c :: ensureSpaceAfter sym (d :: rest)

/-- `normalize_line` from `cleaning/normalizers.py`: strip, full-width
punctuation replacement (in dict order), whitespace collapse, then spacing
after `,`, `;`, `:` (in that order). -/
def normalize_line (text : List Char) : List Char :=
  if text = [] then []
  else
    ensureSpaceAfter ':' (ensureSpaceAfter ';' (ensureSpaceAfter ','
      (collapseWs (FULLWIDTH_PUNCTUATION.foldl
        (fun acc p => replaceChar p.1 p.2 acc) (stripChars text)))))

/-- `normalize_lines` from `cleaning/normalizers.py`: normalize each line
and drop empty results. -/
def normalize_lines (lines : List (List Char)) : List (List Char) :=
  lines.foldr (fun l acc =>
    let n := normalize_line l
    if n = [] then acc else n :: acc) []

/-! ## `parsers/pdf_parser.py`: section segmentation -/

/-- `_match_section` from `parsers/pdf_parser.py`: first definition (in list
order) with any pattern matching the stripped line. -/
def _match_section (line : List Char) (definitions : List SectionDefinition) :
    Option SectionDefinition :=
  let normalized := stripChars line
  if normalized = [] then none
  else definitions.find? (fun d => d.patterns.any (fun p => rsearch p.1 p.2 normalized))

/-- One line of the `parse_pdf_sections` loop: a heading match closes the
current section (kept only if it accumulated lines) and opens a new one; any
other line goes to the current section's body, adding the page index to its
page list if absent. -/
def parseLine (definitions : List SectionDefinition) (page_index : Nat)
    (st : List PdfSection × PdfSection) (line : List Char) :
    List PdfSection × PdfSection :=
  match _match_section line definitions with
  | some d =>
    (if st.2.lines ≠ [] then st.1 ++ [st.2] else st.1,
     ⟨d.name, stripChars line, [page_index], []⟩)
  | none =>
    (st.1,
     { st.2 with
        lines := st.2.lines ++ [line],
        pages := if page_index ∈ st.2.pages then st.2.pages
                 else st.2.pages ++ [page_index] })

/-- Process one page's raw lines (normalized first, as the source does). -/
def parsePage (definitions : List SectionDefinition) (page_index : Nat)
    (st : List PdfSection × PdfSection) (raw_lines : List (List Char)) :
    List PdfSection × PdfSection :=
  (normalize_lines raw_lines).foldl (parseLine definitions page_index) st

/-- Fold over the pages, 1-based page indices. -/
def parsePages (definitions : List SectionDefinition) :
    Nat → List (List (List Char)) → List PdfSection × PdfSection →
    List PdfSection × PdfSection
  | _, [], st => st
  | pidx, pg :: rest, st =>
    parsePages definitions (pidx + 1) rest (parsePage definitions pidx st pg)

/-- `parse_pdf_sections` from `parsers/pdf_parser.py`, over the extracted
per-page raw lines (PDF reading and text extraction are I/O; their output is
the page line lists).  The final accumulator is flushed when it has lines or
is not the default `document_intro` section. -/
def parse_pdf_sections (definitions : List SectionDefinition)
    (pages : List (List (List Char))) : List PdfSection :=
  let st := parsePages definitions 1 pages
    ([], ⟨str "document_intro", str "Document Introduction", [], []⟩)
  if st.2.lines ≠ [] ∨ st.2.name ≠ str "document_intro" then st.1 ++ [st.2] else st.1

/-! ## `parsers/pdf_parser.py`: holdings extraction -/

/-- `TopHoldingEntry` dataclass from `parsers/pdf_parser.py`. -/
structure TopHoldingEntry where
  name : List Char
  instrument_type : List Char
deriving DecidableEq, Repr

/-- Python `str.lower()` (ASCII case folding; the compared tokens are ASCII
or CJK, and CJK code points have no case). -/
def toLowerStr (l : List Char) : List Char := l.map lowerChar

/-- Python `needle in hay` substring test. -/
def containsSub (needle hay : List Char) : Bool :=
  hay.tails.any (fun t => needle.isPrefixOf t)

/-- `SECTOR_NAMES` from `parsers/pdf_parser.py`. -/
def SECTOR_NAMES : List (List Char) :=
  [str "Information Technology", str "Communication Services",
   str "Consumer Discretionary", str "Consumer Staples", str "Health Care",
   str "Financials", str "Industrials", str "Materials", str "Utilities",
   str "Real Estate", str "Energy", str "Other", str "Cash",
   str "Cash & Derivatives"]

/-- Word character for the regex `\\b` boundary.  Python's `\\w` is the
Unicode word class; ASCII alphanumerics, underscore and the CJK block cover
the code points occurring in this pipeline's inputs. -/
def isWordChar (c : Char) : Bool :=
  (48 ≤ c.toNat && c.toNat ≤ 57) || (65 ≤ c.toNat && c.toNat ≤ 90) ||
  (97 ≤ c.toNat && c.toNat ≤ 122) || c.toNat = 95 || _is_cjk c

/-- The name character class `[A-Za-z0-9.,\x27&()/ -]` of `_SECTOR_PATTERN`
(code point 39 is the apostrophe). -/
def nameClassChar (c : Char) : Bool :=
  (65 ≤ c.toNat && c.toNat ≤ 90) || (97 ≤ c.toNat && c.toNat ≤ 122) ||
  (48 ≤ c.toNat && c.toNat ≤ 57) || c = '.' || c = ',' || c.toNat = 39 ||
  c = '&' || c = '(' || c = ')' || c = '/' || c = ' ' || c = '-'

/-- Case-insensitive prefix test. -/
def icPrefix (pre l : List Char) : Bool :=
  (toLowerStr pre).isPrefixOf (toLowerStr l)

/-- Some sector alternative matches (case-insensitively) at the head of
`rest`, followed by a `\\b` boundary (end of string or a non-word
character). -/
def sectorAtBoundary (rest : List Char) : Bool :=
  SECTOR_NAMES.any (fun sct =>
    icPrefix sct rest &&
      (match rest.drop sct.length with
       | [] => true
       | c :: _ => !isWordChar c))

/-- `\\s+(?P<sector>…)\\b` at `rest`: one-or-more whitespace then a sector
with a boundary.  The greedy/backtracking `\\s+` is equivalent to taking the
maximal space run, as no sector starts with whitespace. -/
def sectorSpaceTail (rest : List Char) : Bool :=
  let sp := rest.takeWhile pyIsSpace
  !sp.isEmpty && sectorAtBoundary (rest.drop sp.length)

/-- The lazy group `(?P<name>[…]+?)` of `_SECTOR_PATTERN.match`: extend the
(non-empty, all-in-class) prefix one character at a time — shortest first,
as laziness demands — until the rest of the pattern matches; a character
outside the class ends the search. -/
def sectorGo : List Char → List Char → Option (List Char)
  | _, [] => none
  | pre, c :: rest =>
    if nameClassChar c then
      if sectorSpaceTail rest then some (pre ++ [c])
      else sectorGo (pre ++ [c]) rest
    else none

/-- `_SECTOR_PATTERN.match(name_part)`, returning `group("name")` on
success. -/
def sectorMatchName (name_part : List Char) : Option (List Char) :=
  sectorGo [] name_part

/-- Does a suffix match `[0-9]+(?:\\.[0-9]+)?%?$` exactly to the end?  The
greedy digit runs are forced (a digit can continue only the digit run), so
`takeWhile` is equivalent to the backtracking search. -/
def parsesNumEnd (s : List Char) : Bool :=
  let ds := s.takeWhile isAsciiDigit
  if ds.isEmpty then false
  else
    match s.drop ds.length with
    | [] => true
    | ['%'] => true
    | '.' :: r2 =>
      let ds2 := r2.takeWhile isAsciiDigit
      if ds2.isEmpty then false
      else
        match r2.drop ds2.length with
        | [] => true
        | ['%'] => true
        | _ => false
    | _ => false

/-- `_VALUE_AT_END_PATTERN.search(candidate)` with `match.end() ==
len(candidate)`: the leftmost position whose suffix is a trailing numeric
token (the candidate is newline-free, so `$` is the end of the string);
returns `match.start()`. -/
def valueEndSplit : List Char → Option Nat
  | [] => none
  | c :: rest =>
    if parsesNumEnd (c :: rest) then some 0
    else (valueEndSplit rest).map (fun n => n + 1)

/-- `_contains_cjk` from `parsers/pdf_parser.py`
(`_CHINESE_CHAR_PATTERN.search`). -/
def _contains_cjk (l : List Char) : Bool := l.any _is_cjk

/-- Python `str.split()`: split on whitespace runs, dropping empties
(`cur` accumulates the current token, reversed). -/
def splitWsGo (cur : List Char) : List Char → List (List Char)
  | [] => if cur = [] then [] else [cur.reverse]
  | c :: rest =>
    if pyIsSpace c then
      if cur = [] then splitWsGo [] rest
      else cur.reverse :: splitWsGo [] rest
    else splitWsGo (c :: cur) rest

/-- Python `str.split()`. -/
def splitWs (l : List Char) : List (List Char) := splitWsGo [] l

/-- Python `" ".join(parts)`. -/
def joinSpace (parts : List (List Char)) : List Char :=
  List.intercalate [' '] parts

/-- The token loop of `_clean_company_name`: keep leading tokens, stopping
before the first CJK-containing token once at least one token is kept. -/
def takePrimary : List (List Char) → List (List Char) → List (List Char)
  | acc, [] => acc
  | acc, t :: rest =>
    if _contains_cjk t && !acc.isEmpty then acc
    else takePrimary (acc ++ [t]) rest

/-- `_clean_company_name` from `parsers/pdf_parser.py`. -/
def _clean_company_name (raw : List Char) : List Char :=
  let normalized := stripChars (collapseWs raw)
  if normalized = [] then []
  else
    let cleaned := stripChars (joinSpace (takePrimary [] (splitWs normalized)))
    if cleaned = [] then normalized else cleaned

/-- `_infer_type_from_title` from `parsers/pdf_parser.py`. -/
def _infer_type_from_title (title : List Char) : Option (List Char) :=
  if title = [] then none
  else
    let normalized := toLowerStr title
    if !([str "持倉", str "持仓", str "holdings", str "holding"].any
        (fun t => containsSub t normalized)) then none
    else if [str "固定收益", str "fixed income", str "債券", str "债券",
        str "bond"].any (fun t => containsSub t normalized) then
      some (str "fixed_income")
    else if [str "股票", str "equity"].any (fun t => containsSub t normalized) then
      some (str "equity")
    else none

/-- `_infer_type_from_name` from `parsers/pdf_parser.py`. -/
def _infer_type_from_name (name : List Char) : Option (List Char) :=
  let normalized := toLowerStr name
  if [str " bond", str "bond ", str "bnd ", str " note", str "notes", str "債",
      str "债", str "debenture", str "bill", str "treasury",
      str "certificate"].any (fun t => containsSub t normalized) then
    some (str "fixed_income")
  else none

/-- The `stop_keywords` tuple of `extract_top_holdings_entries`. -/
def stop_keywords : List (List Char) :=
  [str "投資組合", str "組合分布", str "組合分佈", str "類別分布", str "類別分佈",
   str "股票特點", str "固定收益特點", str "行業分佈", str "行業分布", str "滙豐集合",
   str "月度報告", str "有關詞彙", str "重要資訊", str "關注我們"]

/-- `_flush_buffer` from `extract_top_holdings_entries`: assemble the
buffered row, require a trailing numeric token, strip it, reject empty or
`%`-containing names, recover the name by sector-suffix matching or
name-cleaning, and classify. -/
def _flush_buffer (buffer : List (List Char)) (current_type : Option (List Char)) :
    Option TopHoldingEntry :=
  if buffer = [] then none
  else
    let candidate := collapseWs (stripChars (joinSpace buffer))
    match valueEndSplit candidate with
    | none => none
    | some i =>
      let name_part := stripChars (candidate.take i)
      if name_part = [] || '%' ∈ name_part then none
      else
        let name := match sectorMatchName name_part with
          | some nm => stripChars nm
          | none => _clean_company_name name_part
        if name = [] then none
        else
          some ⟨name,
            (current_type.orElse (fun _ => _infer_type_from_name name)).getD
              (str "equity")⟩

/-- The line loop of `extract_top_holdings_entries`: skip `sector ` headers
and aggregate rows, switch `current_type` on sub-table headers (flushing),
flush on call-to-action cues, flush and terminate on stop keywords, else
buffer the line and flush as soon as the assembled candidate ends in a
numeric value.  The trailing `_flush_buffer()` of the source is the base
case (after a stop-keyword break the buffer is empty, so that final flush is
a no-op, as here). -/
def extractLoop : Option (List Char) → List (List Char) → List (List Char) →
    List TopHoldingEntry
  | current_type, buffer, [] => (_flush_buffer buffer current_type).toList
  | current_type, buffer, line :: rest =>
    let text := stripChars line
    if text = [] then extractLoop current_type buffer rest
    else
      let lowered := toLowerStr text
      if (str "sector ").isPrefixOf lowered then extractLoop current_type buffer rest
      else if (str "total").isPrefixOf lowered || containsSub (str "合共") text then
        extractLoop current_type buffer rest
      else
        match _infer_type_from_title text with
        | some title_type =>
          (_flush_buffer buffer current_type).toList ++
            extractLoop (some title_type) [] rest
        | none =>
          if [str "查閱", str "請掃描"].any (fun k => containsSub k text) then
            (_flush_buffer buffer current_type).toList ++
              extractLoop current_type [] rest
          else if stop_keywords.any (fun k => containsSub k text) then
            (_flush_buffer buffer current_type).toList
          else
            if (valueEndSplit (collapseWs (joinSpace (buffer ++ [text])))).isSome then
              (_flush_buffer (buffer ++ [text]) current_type).toList ++
                extractLoop current_type [] rest
            else extractLoop current_type (buffer ++ [text]) rest

/-- `extract_top_holdings_entries` from `parsers/pdf_parser.py`:
`current_type` is seeded from the section title. -/
def extract_top_holdings_entries (sct : PdfSection) : List TopHoldingEntry :=
  extractLoop (_infer_type_from_title sct.title) [] sct.lines

/-! ## Helper lemmas: lists and stripping -/

theorem mem_dropWhile_of_mem {p : Char → Bool} {x : Char} :
    ∀ {l : List Char}, x ∈ l → p x = false → x ∈ l.dropWhile p
  | a :: t, hx, hpx => by
    by_cases ha : p a
    · simp only [List.dropWhile, ha]
      rcases List.mem_cons.mp hx with rfl | ht
      · exact absurd ha (by simp [hpx])
      · exact mem_dropWhile_of_mem ht hpx
    · simpa [List.dropWhile, ha] using hx

theorem stripChars_ne_nil_of_mem {x : Char} {l : List Char}
    (hx : x ∈ l) (hpx : pyIsSpace x = false) : stripChars l ≠ [] := by
  intro h
  have h1 : x ∈ l.dropWhile pyIsSpace := mem_dropWhile_of_mem hx hpx
  have h2 : x ∈ (l.dropWhile pyIsSpace).reverse.dropWhile pyIsSpace :=
    mem_dropWhile_of_mem (List.mem_reverse.mpr h1) hpx
  have h3 : x ∈ stripChars l := List.mem_reverse.mpr h2
  rw [h] at h3
  exact absurd h3 (List.not_mem_nil x)

theorem mem_listSlice {l : List Char} {a b p : Nat} {c : Char}
    (hap : a ≤ p) (hpb : p < b) (hp : l[p]? = some c) : c ∈ listSlice l a b := by
  have hlt : p < l.length := (List.getElem?_eq_some.mp hp).1
  have hdrop : (l.drop a)[p - a]? = some c := by
    rw [List.getElem?_drop]
    rwa [Nat.add_sub_cancel' hap]
  have htake : (listSlice l a b)[p - a]? = some c := by
    unfold listSlice
    rw [List.getElem?_take_of_lt (by omega)]
    exact hdrop
  obtain ⟨h1, h2⟩ := List.getElem?_eq_some.mp htake
  exact h2 ▸ List.getElem_mem h1

/-! ## Chunker lemmas (claims C4, C5, C10) -/

theorem chunkLoop_start_le (sname toks : List Char) (csize step : Nat) :
    ∀ (fuel start i : Nat) (ch : TextChunk),
      ch ∈ chunkLoop sname toks csize step fuel start i → start ≤ ch.start_offset
  | 0, start, i, ch, h => by simp [chunkLoop] at h
  | fuel + 1, start, i, ch, h => by
    rw [chunkLoop] at h
    by_cases hs : start < toks.length
    · simp only [if_pos hs] at h
      by_cases he : (stripChars (listSlice toks start (min (start + csize) toks.length))).isEmpty
      · simp only [he, if_pos] at h
        have := chunkLoop_start_le sname toks csize step fuel (start + step) i ch h
        omega
      · simp only [if_neg he] at h
        rcases List.mem_cons.mp h with rfl | ht
        · exact Nat.le_refl _
        · have := chunkLoop_start_le sname toks csize step fuel (start + step) (i + 1) ch ht
          omega
    · simp [if_neg hs] at h

theorem chunkLoop_mem_props (sname toks : List Char) (csize step : Nat)
    (hstep : 0 < step) (hsc : step ≤ csize) :
    ∀ (fuel start i : Nat), step ∣ start → ∀ ch ∈ chunkLoop sname toks csize step fuel start i,
      ch.text ≠ [] ∧
      ch.text = stripChars (listSlice toks ch.start_offset ch.end_offset) ∧
      ch.start_offset < ch.end_offset ∧
      ch.end_offset ≤ toks.length ∧
      ch.end_offset - ch.start_offset ≤ csize ∧
      step ∣ ch.start_offset
  | 0, start, i, _, ch, h => by simp [chunkLoop] at h
  | fuel + 1, start, i, hdvd, ch, h => by
    rw [chunkLoop] at h
    by_cases hs : start < toks.length
    · simp only [if_pos hs] at h
      by_cases he : (stripChars (listSlice toks start (min (start + csize) toks.length))).isEmpty
      · simp only [he, if_pos] at h
        exact chunkLoop_mem_props sname toks csize step hstep hsc fuel (start + step) i
          (Nat.dvd_add hdvd dvd_rfl) ch h
      · simp only [if_neg he] at h
        rcases List.mem_cons.mp h with rfl | ht
        · dsimp only
          refine ⟨?_, rfl, ?_, ?_, ?_, hdvd⟩
          · intro hnil
            rw [hnil] at he
            exact he rfl
          · exact lt_min (by omega) hs
          · exact min_le_right _ _
          · have := min_le_left (start + csize) toks.length
            omega
        · exact chunkLoop_mem_props sname toks csize step hstep hsc fuel (start + step) (i + 1)
            (Nat.dvd_add hdvd dvd_rfl) ch ht
    · simp [if_neg hs] at h

theorem chunkLoop_map_index (sname toks : List Char) (csize step : Nat) :
    ∀ (fuel start i : Nat),
      (chunkLoop sname toks csize step fuel start i).map (fun ch => ch.index) =
        List.range' i (chunkLoop sname toks csize step fuel start i).length
  | 0, start, i => by simp [chunkLoop]
  | fuel + 1, start, i => by
    rw [chunkLoop]
    by_cases hs : start < toks.length
    · simp only [if_pos hs]
      by_cases he : (stripChars (listSlice toks start (min (start + csize) toks.length))).isEmpty
      · simp only [he, if_pos]
        exact chunkLoop_map_index sname toks csize step fuel (start + step) i
      · simp only [if_neg he, List.map_cons, List.length_cons, List.range'_succ]
        rw [chunkLoop_map_index sname toks csize step fuel (start + step) (i + 1)]
    · simp [if_neg hs]

theorem chunkLoop_pairwise (sname toks : List Char) (csize step : Nat) (hstep : 0 < step) :
    ∀ (fuel start i : Nat),
      List.Pairwise (fun a b => a.start_offset < b.start_offset)
        (chunkLoop sname toks csize step fuel start i)
  | 0, start, i => by simp [chunkLoop]
  | fuel + 1, start, i => by
    rw [chunkLoop]
    by_cases hs : start < toks.length
    · simp only [if_pos hs]
      by_cases he : (stripChars (listSlice toks start (min (start + csize) toks.length))).isEmpty
      · simp only [he, if_pos]
        exact chunkLoop_pairwise sname toks csize step hstep fuel (start + step) i
      · simp only [if_neg he]
        refine List.Pairwise.cons ?_ (chunkLoop_pairwise sname toks csize step hstep fuel
          (start + step) (i + 1))
        intro b hb
        have := chunkLoop_start_le sname toks csize step fuel (start + step) (i + 1) b hb
        simp only
        omega
    · simp [if_neg hs]

theorem chunkLoop_cover (sname toks : List Char) (csize step : Nat)
    (hstep : 0 < step) (hsc : step ≤ csize) :
    ∀ (fuel start i p : Nat) (cp : Char), toks.length ≤ start + fuel → start ≤ p →
      toks[p]? = some cp → pyIsSpace cp = false →
      ∃ ch ∈ chunkLoop sname toks csize step fuel start i,
        ch.start_offset ≤ p ∧ p < ch.end_offset
  | 0, start, i, p, cp, hfuel, hsp, hp, hcp => by
    have : p < toks.length := (List.getElem?_eq_some.mp hp).1
    omega
  | fuel + 1, start, i, p, cp, hfuel, hsp, hp, hcp => by
    have hplen : p < toks.length := (List.getElem?_eq_some.mp hp).1
    have hs : start < toks.length := by omega
    rw [chunkLoop]
    simp only [if_pos hs]
    by_cases hpe : p < min (start + csize) toks.length
    · have hmem : cp ∈ listSlice toks start (min (start + csize) toks.length) :=
        mem_listSlice hsp hpe hp
      have hne : stripChars (listSlice toks start (min (start + csize) toks.length)) ≠ [] :=
        stripChars_ne_nil_of_mem hmem hcp
      have he : (stripChars (listSlice toks start (min (start + csize) toks.length))).isEmpty
          = false := by
        cases hx : stripChars (listSlice toks start (min (start + csize) toks.length)) with
        | nil => exact absurd hx hne
        | cons a l => simp [hx]
      simp only [he, Bool.false_eq_true, if_false]
      exact ⟨_, List.mem_cons_self _ _, hsp, hpe⟩
    · have hemin : min (start + csize) toks.length = start + csize := by omega
      have hrec := chunkLoop_cover sname toks csize step hstep hsc fuel (start + step)
        (i + 1) p cp (by omega) (by omega) hp hcp
      have hrec0 := chunkLoop_cover sname toks csize step hstep hsc fuel (start + step)
        i p cp (by omega) (by omega) hp hcp
      by_cases he : (stripChars (listSlice toks start (min (start + csize) toks.length))).isEmpty
      · simp only [he, if_pos]
        exact hrec0
      · simp only [if_neg he]
        obtain ⟨ch, hch, h1, h2⟩ := hrec
        exact ⟨ch, List.mem_cons_of_mem _ hch, h1, h2⟩

/-- C10: every chunk emitted by `chunk_section_text` (for valid `c > 0`,
`0 ≤ o < c`) has non-empty text equal to the whitespace-stripped slice
`[start_offset, end_offset)` of the trimmed input, offsets within bounds with
`end - start ≤ c` and `start` a multiple of `c - o`; emitted chunks carry
consecutive indices `0, 1, 2, …` in strictly increasing `start_offset`
order. -/
theorem chunk_section_text_invariants (name text : List Char) (c o : Nat)
    (cs : List TextChunk) (hc : 0 < c) (ho : o < c)
    (heq : chunk_section_text name text c o = Except.ok cs) :
    (∀ ch ∈ cs,
      ch.text ≠ [] ∧
      ch.text = stripChars (listSlice (stripChars text) ch.start_offset ch.end_offset) ∧
      ch.start_offset < ch.end_offset ∧
      ch.end_offset ≤ (stripChars text).length ∧
      ch.end_offset - ch.start_offset ≤ c ∧
      (c - o) ∣ ch.start_offset) ∧
    cs.map (fun ch => ch.index) = List.range cs.length ∧
    List.Pairwise (fun a b => a.start_offset < b.start_offset) cs := by
  unfold chunk_section_text at heq
  rw [if_neg (by omega), if_neg (by omega)] at heq
  by_cases hclean : stripChars text = []
  · simp only [hclean, if_pos] at heq
    obtain rfl : cs = [] := (Except.ok.inj heq).symm
    simp
  · simp only [hclean, if_neg, if_false] at heq
    obtain rfl := (Except.ok.inj heq).symm
    refine ⟨?_, ?_, ?_⟩
    · exact fun ch hch => chunkLoop_mem_props name (stripChars text) c (c - o)
        (by omega) (by omega) _ 0 0 (dvd_zero _) ch hch
    · rw [chunkLoop_map_index, List.range_eq_range']
    · exact chunkLoop_pairwise name (stripChars text) c (c - o) (by omega) _ 0 0

theorem chunk_section_text_invariants_witness :
    (0 : Nat) < 4 ∧ (1 : Nat) < 4 ∧
    chunk_section_text (str "s") (str "hello world") 4 1 =
      Except.ok [⟨str "s", 0, str "hell", 0, 4⟩, ⟨str "s", 1, str "lo w", 3, 7⟩,
        ⟨str "s", 2, str "worl", 6, 10⟩, ⟨str "s", 3, str "ld", 9, 11⟩] ∧
    ((∀ ch ∈ [(⟨str "s", 0, str "hell", 0, 4⟩ : TextChunk), ⟨str "s", 1, str "lo w", 3, 7⟩,
        ⟨str "s", 2, str "worl", 6, 10⟩, ⟨str "s", 3, str "ld", 9, 11⟩],
      ch.text ≠ [] ∧
      ch.text = stripChars (listSlice (stripChars (str "hello world"))
        ch.start_offset ch.end_offset) ∧
      ch.start_offset < ch.end_offset ∧
      ch.end_offset ≤ (stripChars (str "hello world")).length ∧
      ch.end_offset - ch.start_offset ≤ 4 ∧
      (4 - 1) ∣ ch.start_offset) ∧
    ([(⟨str "s", 0, str "hell", 0, 4⟩ : TextChunk), ⟨str "s", 1, str "lo w", 3, 7⟩,
        ⟨str "s", 2, str "worl", 6, 10⟩, ⟨str "s", 3, str "ld", 9, 11⟩].map
          (fun ch => ch.index) =
      List.range [(⟨str "s", 0, str "hell", 0, 4⟩ : TextChunk), ⟨str "s", 1, str "lo w", 3, 7⟩,
        ⟨str "s", 2, str "worl", 6, 10⟩, ⟨str "s", 3, str "ld", 9, 11⟩].length) ∧
    List.Pairwise (fun a b => a.start_offset < b.start_offset)
      [(⟨str "s", 0, str "hell", 0, 4⟩ : TextChunk), ⟨str "s", 1, str "lo w", 3, 7⟩,
        ⟨str "s", 2, str "worl", 6, 10⟩, ⟨str "s", 3, str "ld", 9, 11⟩]) :=
  ⟨by decide, by decide, rfl,
    chunk_section_text_invariants (str "s") (str "hello world") 4 1 _
      (by decide) (by decide) rfl⟩

/-- C4 counterexample: with input text `"a     b"`, chunk size 3 and overlap 0,
the middle window `[3, 6)` is whitespace-only, is dropped, and the space at
offset 3 of the trimmed input lies in no produced chunk's window — the claim
as stated (every character covered) is false. -/
theorem chunk_coverage_counterexample :
    chunk_section_text (str "s") (str "a     b") 3 0 =
      Except.ok [⟨str "s", 0, str "a", 0, 3⟩, ⟨str "s", 1, str "b", 6, 7⟩] ∧
    3 < (stripChars (str "a     b")).length ∧
    ¬ ∃ ch ∈ [(⟨str "s", 0, str "a", 0, 3⟩ : TextChunk), ⟨str "s", 1, str "b", 6, 7⟩],
        ch.start_offset ≤ 3 ∧ 3 < ch.end_offset := by
  refine ⟨rfl, by decide, ?_⟩
  decide

/-- C4 (amended): every non-whitespace character of the trimmed input lies
inside at least one produced chunk's `[start_offset, end_offset)` window;
only whitespace characters can be skipped (they are skipped exactly when
their whole window strips to the empty chunk, which is dropped). -/
theorem chunk_nonspace_coverage (name text : List Char) (c o : Nat)
    (cs : List TextChunk) (hc : 0 < c) (ho : o < c)
    (heq : chunk_section_text name text c o = Except.ok cs)
    (p : Nat) (cp : Char) (hp : (stripChars text)[p]? = some cp)
    (hcp : pyIsSpace cp = false) :
    ∃ ch ∈ cs, ch.start_offset ≤ p ∧ p < ch.end_offset := by
  unfold chunk_section_text at heq
  rw [if_neg (by omega), if_neg (by omega)] at heq
  by_cases hclean : stripChars text = []
  · rw [hclean] at hp
    simp at hp
  · simp only [hclean, if_neg, if_false] at heq
    obtain rfl := (Except.ok.inj heq).symm
    exact chunkLoop_cover name (stripChars text) c (c - o) (by omega) (by omega)
      (stripChars text).length 0 0 p cp (by omega) (Nat.zero_le p) hp hcp

theorem chunk_nonspace_coverage_witness :
    (0 : Nat) < 3 ∧ (1 : Nat) < 3 ∧
    chunk_section_text (str "s") (str "ab") 3 1 =
      Except.ok [⟨str "s", 0, str "ab", 0, 2⟩] ∧
    (stripChars (str "ab"))[1]? = some 'b' ∧ pyIsSpace 'b' = false ∧
    ∃ ch ∈ [(⟨str "s", 0, str "ab", 0, 2⟩ : TextChunk)],
      ch.start_offset ≤ 1 ∧ 1 < ch.end_offset :=
  ⟨by decide, by decide, rfl, by decide, by decide,
    chunk_nonspace_coverage (str "s") (str "ab") 3 1 _ (by decide) (by decide) rfl 1 'b'
      (by decide) (by decide)⟩

/-- C5 counterexample: the section-name argument is never inspected, so an
empty section name with non-blank text still produces chunks — the claim that
`chunk_section_text("", s, …)` yields an empty list is false. -/
theorem chunk_empty_name_counterexample :
    chunk_section_text [] (str "hello") 5 0 =
      Except.ok [⟨[], 0, str "hello", 0, 5⟩] ∧
    chunk_section_text [] (str "hello") 5 0 ≠ Except.ok [] := by
  refine ⟨rfl, ?_⟩
  decide

/-- C5 (amended): for valid `c > 0` and `0 ≤ o < c`, `chunk_section_text`
called with any section name and a text that strips to empty (empty or
whitespace-only) yields an empty list. -/
theorem chunk_blank_text_empty (name text : List Char) (c o : Nat)
    (hc : 0 < c) (ho : o < c) (hblank : stripChars text = []) :
    chunk_section_text name text c o = Except.ok [] := by
  unfold chunk_section_text
  rw [if_neg (by omega), if_neg (by omega)]
  simp only [hblank, if_pos]

theorem chunk_blank_text_empty_witness :
    (0 : Nat) < 2 ∧ (0 : Nat) < 2 ∧ stripChars (str "   ") = [] ∧
    chunk_section_text (str "x") (str "   ") 2 0 = Except.ok [] :=
  ⟨by decide, by decide, by decide,
    chunk_blank_text_empty (str "x") (str "   ") 2 0 (by decide) (by decide) (by decide)⟩

/-! ## Page-language classifier (claim C6) -/

/-- C6 counterexample: with `chinese_threshold = 0`, a page with zero CJK
characters and zero ASCII letters (here `"123"`) is *kept* (the `chinese >=
chinese_threshold` branch fires on `0 >= 0`), contradicting the claim's
"zero CJK and zero ASCII letters is dropped" for every threshold. -/
theorem is_chinese_dominant_counterexample :
    (str "123").countP _is_cjk = 0 ∧
    (str "123").countP isAsciiLetter = 0 ∧
    _is_chinese_dominant (str "123") 0 (1 / 2) = true := by
  refine ⟨by decide, by decide, ?_⟩
  decide

/-- C6 (amended): the classifier keeps a page iff the CJK count reaches the
threshold, or there are letters and the ASCII-letter ratio is below the
ratio threshold; a page with CJK count ≥ threshold is always kept; and —
provided the CJK threshold is positive (as its default 10 is) — a page with
zero CJK characters and zero ASCII letters is dropped. -/
theorem is_chinese_dominant_rule (text : List Char) (t : Nat) (r : Rat) :
    (_is_chinese_dominant text t r = true ↔
      (t ≤ text.countP _is_cjk ∨
        (0 < text.countP _is_cjk + text.countP isAsciiLetter ∧
          (text.countP isAsciiLetter : Rat) /
            ((text.countP _is_cjk + text.countP isAsciiLetter : Nat) : Rat) < r))) ∧
    (t ≤ text.countP _is_cjk → _is_chinese_dominant text t r = true) ∧
    (0 < t → text.countP _is_cjk = 0 → text.countP isAsciiLetter = 0 →
      _is_chinese_dominant text t r = false) := by
  unfold _is_chinese_dominant
  by_cases hcj : t ≤ text.countP _is_cjk
  · simp only [if_pos hcj]
    refine ⟨by simp [hcj], fun _ => trivial, fun ht h0 _ => ?_⟩
    omega
  · simp only [if_neg hcj]
    by_cases htot : text.countP _is_cjk + text.countP isAsciiLetter = 0
    · simp only [if_pos htot]
      refine ⟨?_, fun h => absurd h hcj, fun _ _ _ => trivial⟩
      constructor
      · intro h
        exact absurd h (by simp)
      · intro h
        rcases h with h | ⟨h0, _⟩
        · exact absurd h hcj
        · omega
    · simp only [if_neg htot]
      refine ⟨?_, fun h => absurd h hcj, fun _ h0 h1 => absurd (by omega) htot⟩
      constructor
      · intro h
        exact Or.inr ⟨by omega, of_decide_eq_true h⟩
      · intro h
        rcases h with h | ⟨_, hr⟩
        · exact absurd h hcj
        · exact decide_eq_true hr

theorem is_chinese_dominant_rule_witness :
    ((_is_chinese_dominant (str "abc") 10 (4 / 5) = true ↔
      (10 ≤ (str "abc").countP _is_cjk ∨
        (0 < (str "abc").countP _is_cjk + (str "abc").countP isAsciiLetter ∧
          ((str "abc").countP isAsciiLetter : Rat) /
            (((str "abc").countP _is_cjk + (str "abc").countP isAsciiLetter : Nat) : Rat)
              < 4 / 5))) ∧
    (10 ≤ (str "abc").countP _is_cjk → _is_chinese_dominant (str "abc") 10 (4 / 5) = true) ∧
    (0 < 10 → (str "abc").countP _is_cjk = 0 → (str "abc").countP isAsciiLetter = 0 →
      _is_chinese_dominant (str "abc") 10 (4 / 5) = false)) :=
  is_chinese_dominant_rule (str "abc") 10 (4 / 5)

/-! ## Quarter normalizer (claim C9) -/

/-- C9: the claim (and the `ValueError` message in `config.py` itself, which
says "case-insensitive") promises that `"2025q2"` is accepted, but
`_QUARTER_PATTERN` is compiled without `re.IGNORECASE`, so the lower-case
`q` input is rejected with a `ValueError` while the canonical upper-case
forms are accepted and normalized. -/
theorem normalize_quarter_rejects_lowercase :
    normalize_quarter (str "2025q2") = none ∧
    quarter_folder_name (str "2025q2") = none ∧
    normalize_quarter (str "2025Q2") = some (str "2025Q2") ∧
    normalize_quarter (str "2025-Q2") = some (str "2025Q2") ∧
    normalize_quarter (str "2025 q2") = none ∧
    quarter_folder_name (str "2025-Q2") = some (str "2025-Q2") := by
  refine ⟨by decide, by decide, by decide, by decide, by decide, by decide⟩

/-! ## Dictionary and key lemmas (claims C1, C2, C3) -/

theorem dictGet_dictSet_self {β : Type} (k : List Char) (v : β) :
    ∀ m : List (List Char × β), dictGet (dictSet k v m) k = some v
  | [] => by simp [dictSet, dictGet]
  | (k2, v2) :: rest => by
    by_cases h : k2 = k
    · simp [dictSet, dictGet, h]
    · simp only [dictSet, if_neg h, dictGet]
      exact dictGet_dictSet_self k v rest

theorem dictGet_dictSet_ne {β : Type} (k k2 : List Char) (v : β) (hne : k2 ≠ k) :
    ∀ m : List (List Char × β), dictGet (dictSet k v m) k2 = dictGet m k2
  | [] => by
    simp only [dictSet, dictGet]
    rw [if_neg (Ne.symm hne)]
  | (k3, v3) :: rest => by
    by_cases h : k3 = k
    · subst h
      simp only [dictSet, if_pos rfl, dictGet]
      rw [if_neg (Ne.symm hne), if_neg (Ne.symm hne)]
    · simp only [dictSet, if_neg h, dictGet]
      by_cases h2 : k3 = k2
      · rw [if_pos h2, if_pos h2]
      · rw [if_neg h2, if_neg h2]
        exact dictGet_dictSet_ne k k2 v hne rest

theorem digitChar_toNat (m : Nat) (h : m < 10) :
    (Char.ofNat (48 + m)).toNat = 48 + m := by
  interval_cases m <;> decide

theorem digitChar_ne_colon (m : Nat) (h : m < 10) : Char.ofNat (48 + m) ≠ ':' := by
  interval_cases m <;> decide

/-- Decimal valuation, the left inverse of `natDigits`. -/
def digitsVal (l : List Char) : Nat :=
  l.foldl (fun a c => a * 10 + (c.toNat - 48)) 0

theorem digitsVal_append_digit (l : List Char) (c : Char) :
    digitsVal (l ++ [c]) = digitsVal l * 10 + (c.toNat - 48) := by
  simp [digitsVal, List.foldl_append]

theorem digitsVal_natDigitsGo : ∀ (fuel n : Nat), n < fuel →
    digitsVal (natDigitsGo fuel n) = n
  | 0, n, h => by omega
  | fuel + 1, n, h => by
    unfold natDigitsGo
    by_cases h10 : n < 10
    · rw [if_pos h10]
      simp [digitsVal, digitChar_toNat n h10]
    · rw [if_neg h10]
      rw [digitsVal_append_digit, digitsVal_natDigitsGo fuel (n / 10) (by omega),
        digitChar_toNat (n % 10) (by omega)]
      omega

theorem digitsVal_natDigits (n : Nat) : digitsVal (natDigits n) = n :=
  digitsVal_natDigitsGo (n + 1) n (Nat.lt_succ_self n)

theorem natDigits_inj {a b : Nat} (h : natDigits a = natDigits b) : a = b := by
  have := digitsVal_natDigits a
  rw [h, digitsVal_natDigits] at this
  omega

theorem colon_not_mem_natDigitsGo : ∀ (fuel n : Nat), ':' ∉ natDigitsGo fuel n
  | 0, n => by simp [natDigitsGo]
  | fuel + 1, n => by
    unfold natDigitsGo
    by_cases h10 : n < 10
    · rw [if_pos h10]
      simp only [List.mem_singleton]
      exact fun h => digitChar_ne_colon n h10 h.symm
    · rw [if_neg h10]
      intro hmem
      rcases List.mem_append.mp hmem with h | h
      · exact colon_not_mem_natDigitsGo fuel (n / 10) h
      · rcases List.mem_singleton.mp h with h2
        exact digitChar_ne_colon (n % 10) (by omega) h2.symm

theorem colon_not_mem_natDigits (n : Nat) : ':' ∉ natDigits n :=
  colon_not_mem_natDigitsGo (n + 1) n

/-- Anchored-front uniqueness: a list split at its first `':'` is split
uniquely. -/
theorem colon_front_split : ∀ (x1 x2 y1 y2 : List Char), ':' ∉ x1 → ':' ∉ x2 →
    x1 ++ ':' :: y1 = x2 ++ ':' :: y2 → x1 = x2 ∧ y1 = y2
  | [], [], y1, y2, _, _, h => by simpa using h
  | [], c :: t, y1, y2, _, hx2, h => by
    simp only [List.nil_append, List.cons_append, List.cons.injEq] at h
    exact absurd (List.mem_cons_self c t) (h.1 ▸ hx2)
  | c :: t, [], y1, y2, hx1, _, h => by
    simp only [List.nil_append, List.cons_append, List.cons.injEq] at h
    exact absurd (List.mem_cons_self c t) (h.1.symm ▸ hx1)
  | c1 :: t1, c2 :: t2, y1, y2, hx1, hx2, h => by
    simp only [List.cons_append, List.cons.injEq] at h
    obtain ⟨rfl, h2⟩ := h
    obtain ⟨ht, hy⟩ := colon_front_split t1 t2 y1 y2
      (fun hm => hx1 (List.mem_cons_of_mem _ hm))
      (fun hm => hx2 (List.mem_cons_of_mem _ hm)) h2
    exact ⟨by rw [ht], hy⟩

/-- The last `':'` of a section key separates the name from the decimal
index, so equal keys have equal indices (and equal names). -/
theorem sectionKey_inj {n1 n2 : List Char} {i1 i2 : Nat}
    (h : sectionKey n1 i1 = sectionKey n2 i2) : n1 = n2 ∧ i1 = i2 := by
  unfold sectionKey at h
  have hrev := congrArg List.reverse h
  simp only [List.reverse_append, List.reverse_cons] at hrev
  rw [List.append_assoc, List.append_assoc] at hrev
  simp only [List.singleton_append] at hrev
  have hsplit := colon_front_split (natDigits i1).reverse (natDigits i2).reverse
    n1.reverse n2.reverse
    (fun hm => colon_not_mem_natDigits i1 (List.mem_reverse.mp hm))
    (fun hm => colon_not_mem_natDigits i2 (List.mem_reverse.mp hm)) hrev
  obtain ⟨hd, hn⟩ := hsplit
  refine ⟨List.reverse_injective hn, natDigits_inj (List.reverse_injective hd)⟩

/-! ## Evaluation-loop lemmas -/

theorem evalLoop_spec (ex pv : Option QuarterMap) :
    ∀ (secs : List PdfSection) (idx : Nat) (res : List SectionHashResult) (m : QuarterMap),
      evalLoop ex pv secs idx res m =
        (res ++ mapResults ex pv idx secs, buildQuarterMap secs idx m)
  | [], idx, res, m => by simp [evalLoop, mapResults, buildQuarterMap]
  | s :: rest, idx, res, m => by
    rw [evalLoop, evalLoop_spec ex pv rest (idx + 1)]
    simp [mapResults, buildQuarterMap]

theorem mapResults_getElem (ex pv : Option QuarterMap) :
    ∀ (secs : List PdfSection) (idx i : Nat) (s : PdfSection), secs[i]? = some s →
      (mapResults ex pv idx secs)[i]? = some (evalSection ex pv (idx + i) s)
  | [], idx, i, s, h => by simp at h
  | s0 :: rest, idx, 0, s, h => by
    simp only [List.getElem?_cons_zero, Option.some.injEq] at h
    subst h
    simp [mapResults]
  | s0 :: rest, idx, i + 1, s, h => by
    simp only [List.getElem?_cons_succ] at h
    simp only [mapResults, List.getElem?_cons_succ]
    rw [mapResults_getElem ex pv rest (idx + 1) i s h]
    congr 2
    omega

theorem buildQuarterMap_skip :
    ∀ (secs : List PdfSection) (start : Nat) (m : QuarterMap) (k : List Char),
      (∀ (j : Nat) (s2 : PdfSection), secs[j]? = some s2 →
        sectionKey s2.name (start + j) ≠ k) →
      dictGet (buildQuarterMap secs start m) k = dictGet m k
  | [], start, m, k, _ => rfl
  | s0 :: rest, start, m, k, hne => by
    rw [buildQuarterMap, buildQuarterMap_skip rest (start + 1) _ k
      (fun j s2 hj => by
        have := hne (j + 1) s2 (by simpa using hj)
        simpa [Nat.add_assoc, Nat.add_comm 1 j] using this)]
    have h0 : sectionKey s0.name (start + 0) ≠ k := hne 0 s0 (by simp)
    rw [Nat.add_zero] at h0
    exact dictGet_dictSet_ne _ _ _ (Ne.symm h0) m

theorem buildQuarterMap_getKey :
    ∀ (secs : List PdfSection) (start : Nat) (m : QuarterMap) (i : Nat) (s : PdfSection),
      secs[i]? = some s →
      dictGet (buildQuarterMap secs start m) (sectionKey s.name (start + i)) =
        some ⟨compute_hash (sectionText s), s.name⟩
  | [], start, m, i, s, h => by simp at h
  | s0 :: rest, start, m, 0, s, h => by
    simp only [List.getElem?_cons_zero, Option.some.injEq] at h
    subst h
    rw [buildQuarterMap]
    simp only [Nat.add_zero]
    rw [buildQuarterMap_skip rest (start + 1) _ (sectionKey s0.name start)
      (fun j s2 hj hk => by
        obtain ⟨_, hidx⟩ := sectionKey_inj hk
        omega)]
    exact dictGet_dictSet_self _ _ m
  | s0 :: rest, start, m, i + 1, s, h => by
    simp only [List.getElem?_cons_succ] at h
    rw [buildQuarterMap]
    have := buildQuarterMap_getKey rest (start + 1)
      (dictSet (sectionKey s0.name start) ⟨compute_hash (sectionText s0), s0.name⟩ m) i s h
    rwa [show start + 1 + i = start + (i + 1) by omega] at this

/-! ## Change-detection index theorems (claims C1, C2, C3) -/

/-- C1: for every call of `evaluate_sections` and section at ordinal `i`
(key `name:i`), the result at position `i` is decided by comparison
priority: the same-quarter entry for the key when the persisted index holds
one, else the entry of the previous quarter (the lexicographically greatest
stored quarter of the fund other than the target, as selected by
`_find_previous_quarter`); no entry in either gives status `"new"` with
`previous_hash = none`; an equal stored hash gives `"reuse"`, a different
one `"updated"`, in both cases carrying the stored hash as
`previous_hash`. -/
theorem evaluate_sections_comparison_priority
    (fund_id quarter : List Char) (sections : List PdfSection) (index : ChunkIndex)
    (i : Nat) (s : PdfSection) (hs : sections[i]? = some s) :
    (evaluate_sections fund_id quarter sections index).1[i]? =
      some (
        let fund_entry := (dictGet index fund_id).getD []
        let key := sectionKey s.name i
        let current_hash := compute_hash (sectionText s)
        match (dictGet fund_entry quarter).bind (fun m => dictGet m key) with
        | some e =>
          if e.hash = current_hash
          then ⟨key, s.name, current_hash, str "reuse", some e.hash⟩
          else ⟨key, s.name, current_hash, str "updated", some e.hash⟩
        | none =>
          match ((_find_previous_quarter fund_entry quarter).2).bind
              (fun m => dictGet m key) with
          | some e =>
            if e.hash = current_hash
            then ⟨key, s.name, current_hash, str "reuse", some e.hash⟩
            else ⟨key, s.name, current_hash, str "updated", some e.hash⟩
          | none => ⟨key, s.name, current_hash, str "new", none⟩) := by
  simp only [evaluate_sections]
  rw [evalLoop_spec]
  simp only [List.nil_append]
  rw [mapResults_getElem _ _ sections 0 i s hs]
  simp only [Nat.zero_add]
  rfl

theorem evaluate_sections_comparison_priority_witness :
    ([(⟨str "top_holdings", str "Top 10 Holdings", [1], [str "Apple 5.2"]⟩ : PdfSection)])[0]?
        = some (⟨str "top_holdings", str "Top 10 Holdings", [1], [str "Apple 5.2"]⟩ : PdfSection) ∧
    (evaluate_sections (str "F") (str "2024Q2")
        [⟨str "top_holdings", str "Top 10 Holdings", [1], [str "Apple 5.2"]⟩]
        [(str "F", [(str "2024Q2", [(str "top_holdings:0",
          ⟨str "abc", str "top_holdings"⟩)])])]).1[0]? =
      some (
        let fund_entry := (dictGet [(str "F", [(str "2024Q2", [(str "top_holdings:0",
          (⟨str "abc", str "top_holdings"⟩ : SectionEntry))])])] (str "F")).getD []
        let key := sectionKey (str "top_holdings") 0
        let current_hash := compute_hash (sectionText
          ⟨str "top_holdings", str "Top 10 Holdings", [1], [str "Apple 5.2"]⟩)
        match (dictGet fund_entry (str "2024Q2")).bind (fun m => dictGet m key) with
        | some e =>
          if e.hash = current_hash
          then ⟨key, str "top_holdings", current_hash, str "reuse", some e.hash⟩
          else ⟨key, str "top_holdings", current_hash, str "updated", some e.hash⟩
        | none =>
          match ((_find_previous_quarter fund_entry (str "2024Q2")).2).bind
              (fun m => dictGet m key) with
          | some e =>
            if e.hash = current_hash
            then ⟨key, str "top_holdings", current_hash, str "reuse", some e.hash⟩
            else ⟨key, str "top_holdings", current_hash, str "updated", some e.hash⟩
          | none => ⟨key, str "top_holdings", current_hash, str "new", none⟩) :=
  ⟨rfl, evaluate_sections_comparison_priority (str "F") (str "2024Q2")
    [⟨str "top_holdings", str "Top 10 Holdings", [1], [str "Apple 5.2"]⟩]
    [(str "F", [(str "2024Q2", [(str "top_holdings:0", ⟨str "abc", str "top_holdings"⟩)])])]
    0 ⟨str "top_holdings", str "Top 10 Holdings", [1], [str "Apple 5.2"]⟩ rfl⟩

/-- C2: evaluating the same sections for the same fund and quarter twice in
sequence against the same store, with no other evaluation in between, makes
every section of the second run report `"reuse"` with `previous_hash` equal
to `current_hash`. -/
theorem evaluate_sections_rerun_reuse
    (fund_id quarter : List Char) (sections : List PdfSection) (index : ChunkIndex)
    (i : Nat) (s : PdfSection) (hs : sections[i]? = some s) :
    ∃ r, (evaluate_sections fund_id quarter sections
        (evaluate_sections fund_id quarter sections index).2).1[i]? = some r ∧
      r.status = str "reuse" ∧ r.previous_hash = some r.current_hash := by
  have hkey : dictGet (buildQuarterMap sections 0 []) (sectionKey s.name i) =
      some ⟨compute_hash (sectionText s), s.name⟩ := by
    have h := buildQuarterMap_getKey sections 0 [] i s hs
    rwa [Nat.zero_add] at h
  have h1 : (evaluate_sections fund_id quarter sections index).2 =
      dictSet fund_id (dictSet quarter (buildQuarterMap sections 0 [])
        ((dictGet index fund_id).getD [])) index := by
    simp only [evaluate_sections]
    rw [evalLoop_spec]
  refine ⟨⟨sectionKey s.name i, s.name, compute_hash (sectionText s), str "reuse",
      some (compute_hash (sectionText s))⟩, ?_, rfl, rfl⟩
  rw [h1]
  simp only [evaluate_sections]
  rw [evalLoop_spec]
  simp only [List.nil_append]
  rw [dictGet_dictSet_self]
  simp only [Option.getD_some]
  rw [mapResults_getElem _ _ sections 0 i s hs]
  simp only [Nat.zero_add, evalSection]
  rw [dictGet_dictSet_self]
  simp only [Option.some_bind]
  rw [hkey]
  simp

theorem evaluate_sections_rerun_reuse_witness :
    ([(⟨str "fees_charges", str "Fees and Charges", [2], [str "fee 1.5%"]⟩ : PdfSection)])[0]?
        = some (⟨str "fees_charges", str "Fees and Charges", [2], [str "fee 1.5%"]⟩ : PdfSection) ∧
    ∃ r, (evaluate_sections (str "F2") (str "2025Q1")
        [⟨str "fees_charges", str "Fees and Charges", [2], [str "fee 1.5%"]⟩]
        (evaluate_sections (str "F2") (str "2025Q1")
          [⟨str "fees_charges", str "Fees and Charges", [2], [str "fee 1.5%"]⟩] []).2).1[0]?
          = some r ∧
      r.status = str "reuse" ∧ r.previous_hash = some r.current_hash :=
  ⟨rfl, evaluate_sections_rerun_reuse (str "F2") (str "2025Q1")
    [⟨str "fees_charges", str "Fees and Charges", [2], [str "fee 1.5%"]⟩] [] 0
    ⟨str "fees_charges", str "Fees and Charges", [2], [str "fee 1.5%"]⟩ rfl⟩

/-- C3: after `evaluate_sections` returns, the persisted index maps
`(fund_id, quarter)` to exactly the key→entry map computed from all current
sections — built from scratch, a full replacement even when `sections` is
empty, never a merge — whose entry for each section at ordinal `i` is its
hash and name; every entry for any other fund, and every other quarter of
this fund, is unchanged. -/
theorem evaluate_sections_replaces_quarter_map
    (fund_id quarter : List Char) (sections : List PdfSection) (index : ChunkIndex) :
    (dictGet ((evaluate_sections fund_id quarter sections index).2) fund_id).bind
        (fun fe => dictGet fe quarter) = some (buildQuarterMap sections 0 []) ∧
    (∀ (i : Nat) (s : PdfSection), sections[i]? = some s →
      dictGet (buildQuarterMap sections 0 []) (sectionKey s.name i) =
        some ⟨compute_hash (sectionText s), s.name⟩) ∧
    (∀ f2, f2 ≠ fund_id →
      dictGet ((evaluate_sections fund_id quarter sections index).2) f2 =
        dictGet index f2) ∧
    (∀ q2, q2 ≠ quarter →
      (dictGet ((evaluate_sections fund_id quarter sections index).2) fund_id).bind
          (fun fe => dictGet fe q2) =
        (dictGet index fund_id).bind (fun fe => dictGet fe q2)) := by
  have h1 : (evaluate_sections fund_id quarter sections index).2 =
      dictSet fund_id (dictSet quarter (buildQuarterMap sections 0 [])
        ((dictGet index fund_id).getD [])) index := by
    simp only [evaluate_sections]
    rw [evalLoop_spec]
  refine ⟨?_, ?_, ?_, ?_⟩
  · rw [h1, dictGet_dictSet_self]
    simp only [Option.some_bind]
    exact dictGet_dictSet_self _ _ _
  · intro i s hs
    have h := buildQuarterMap_getKey sections 0 [] i s hs
    rwa [Nat.zero_add] at h
  · intro f2 hf
    rw [h1]
    exact dictGet_dictSet_ne _ _ _ hf index
  · intro q2 hq
    rw [h1, dictGet_dictSet_self]
    simp only [Option.some_bind]
    rw [dictGet_dictSet_ne _ _ _ hq]
    cases hidx : dictGet index fund_id with
    | none => simp [dictGet]
    | some fe => simp

theorem evaluate_sections_replaces_quarter_map_witness :
    ((dictGet ((evaluate_sections (str "F3") (str "2024Q4") []
        [(str "F3", [(str "2024Q4", [(str "x:0", ⟨str "h", str "x"⟩)]),
          (str "2024Q3", [(str "y:0", ⟨str "g", str "y"⟩)])]),
         (str "G", [])]).2) (str "F3")).bind
        (fun fe => dictGet fe (str "2024Q4")) = some (buildQuarterMap [] 0 [])) ∧
    (dictGet ((evaluate_sections (str "F3") (str "2024Q4") []
        [(str "F3", [(str "2024Q4", [(str "x:0", ⟨str "h", str "x"⟩)]),
          (str "2024Q3", [(str "y:0", ⟨str "g", str "y"⟩)])]),
         (str "G", [])]).2) (str "G") =
      dictGet [(str "F3", [(str "2024Q4", [(str "x:0", ⟨str "h", str "x"⟩)]),
          (str "2024Q3", [(str "y:0", ⟨str "g", str "y"⟩)])]),
         (str "G", [])] (str "G")) ∧
    ((dictGet ((evaluate_sections (str "F3") (str "2024Q4") []
        [(str "F3", [(str "2024Q4", [(str "x:0", ⟨str "h", str "x"⟩)]),
          (str "2024Q3", [(str "y:0", ⟨str "g", str "y"⟩)])]),
         (str "G", [])]).2) (str "F3")).bind
        (fun fe => dictGet fe (str "2024Q3")) =
      (dictGet [(str "F3", [(str "2024Q4", [(str "x:0", ⟨str "h", str "x"⟩)]),
          (str "2024Q3", [(str "y:0", ⟨str "g", str "y"⟩)])]),
         (str "G", [])] (str "F3")).bind (fun fe => dictGet fe (str "2024Q3"))) :=
  ⟨(evaluate_sections_replaces_quarter_map (str "F3") (str "2024Q4") []
      [(str "F3", [(str "2024Q4", [(str "x:0", ⟨str "h", str "x"⟩)]),
        (str "2024Q3", [(str "y:0", ⟨str "g", str "y"⟩)])]), (str "G", [])]).1,
   (evaluate_sections_replaces_quarter_map (str "F3") (str "2024Q4") []
      [(str "F3", [(str "2024Q4", [(str "x:0", ⟨str "h", str "x"⟩)]),
        (str "2024Q3", [(str "y:0", ⟨str "g", str "y"⟩)])]), (str "G", [])]).2.2.1
      (str "G") (by decide),
   (evaluate_sections_replaces_quarter_map (str "F3") (str "2024Q4") []
      [(str "F3", [(str "2024Q4", [(str "x:0", ⟨str "h", str "x"⟩)]),
        (str "2024Q3", [(str "y:0", ⟨str "g", str "y"⟩)])]), (str "G", [])]).2.2.2
      (str "2024Q3") (by decide)⟩

/-! ## Segmenter and holdings extractor examples (claims C7, C8) -/

/-- C7: segmenting `["Important Information", "foo bar", "Top 10 Holdings",
"AAPL Info Tech 5.2"]` with the default definitions yields exactly the two
sections `important_information` and `top_holdings`, in that order, each
with one body line and the heading consumed as its title; no leading
`document_intro` section is emitted since no content precedes the first
heading. -/
theorem parse_sections_example :
    parse_pdf_sections DEFAULT_SECTION_DEFINITIONS
      [[str "Important Information", str "foo bar", str "Top 10 Holdings",
        str "AAPL Info Tech 5.2"]] =
    [⟨str "important_information", str "Important Information", [1], [str "foo bar"]⟩,
     ⟨str "top_holdings", str "Top 10 Holdings", [1], [str "AAPL Info Tech 5.2"]⟩] := by
  decide

/-- C8: the line `"Apple Inc Information Technology 5.2"` in a top-holdings
section yields the equity entry `"Apple Inc"` (sector-suffix recovery), and
`"US Treasury Bond 2.1%"` under a fixed-income title context yields a
fixed-income entry named `"US Treasury Bond"`. -/
theorem extract_holdings_examples :
    extract_top_holdings_entries
      ⟨str "top_holdings", str "Top 10 Holdings", [1],
        [str "Apple Inc Information Technology 5.2"]⟩ =
      [⟨str "Apple Inc", str "equity"⟩] ∧
    extract_top_holdings_entries
      ⟨str "top_holdings", str "固定收益十大持倉", [1],
        [str "US Treasury Bond 2.1%"]⟩ =
      [⟨str "US Treasury Bond", str "fixed_income"⟩] := by
  exact ⟨by decide, by decide⟩
